import Mathlib

/-!
A verification development for the Fluxion state-management core.

The embedding covers, at the granularity the verified claims need:
* plain JS objects as insertion-ordered field/value lists, with the
  spread-merge used by `setState`;
* the store core from `store.ts` (`createStore`): heap-allocated state
  objects, `getState`, `setState` with the middleware pipeline and the
  listener notification loop, `subscribe` backed by a JS `Set`, and
  `destroy`;
* the dependency-based memoization of `derived` (derived-state module);
* the snapshot manager from `snapshot.ts`.
-/

/-- A plain JavaScript object at the granularity the store manipulates it:
an insertion-ordered list of (field name, value) entries with no duplicate
field names.  Field values are kept abstract in `α`. -/
abbrev JSObj (α : Type) : Type := List (String × α)

/-- JS property read `o[k]`: the value of the first entry named `k`
(`none` models an absent property reading as `undefined`). -/
def getField {α : Type} : JSObj α → String → Option α
  | [], _ => none
  | (k, v) :: rest, key => if k = key then some v else getField rest key

/-- One field assignment during object-literal evaluation: if the key is
already present its entry is overwritten in place, otherwise the entry is
appended (JS objects keep insertion order and never hold duplicate keys). -/
def setKey {α : Type} (o : JSObj α) (k : String) (v : α) : JSObj α :=
  if k ∈ o.map Prod.fst then
    o.map (fun e => if e.1 = k then (k, v) else e)
  else
    o ++ [(k, v)]

/-- The object literal `{ ...s, ...u }`: start from the entries of `s` and
assign each entry of `u` in order (later spreads override earlier ones). -/
def spread {α : Type} (s u : JSObj α) : JSObj α :=
  u.foldl (fun acc e => setKey acc e.1 e.2) s

theorem getField_eq_none_iff {α : Type} (o : JSObj α) (k : String) :
    getField o k = none ↔ k ∉ o.map Prod.fst := by
  induction o with
  | nil => simp [getField]
  | cons e rest ih =>
    obtain ⟨ek, ev⟩ := e
    by_cases hek : ek = k
    · subst hek
      simp [getField]
    · simp [getField, hek, ih, Ne.symm hek]

theorem getField_overwrite {α : Type} (o : JSObj α) (k : String) (v : α)
    (h : k ∈ o.map Prod.fst) :
    getField (o.map (fun e => if e.1 = k then (k, v) else e)) k = some v := by
  induction o with
  | nil => simp at h
  | cons e rest ih =>
    obtain ⟨ek, ev⟩ := e
    simp only [List.map_cons]
    by_cases hek : ek = k
    · have hhead : (if (ek, ev).1 = k then (k, v) else (ek, ev)) = (k, v) := if_pos hek
      rw [hhead]
      simp [getField]
    · have hhead : (if (ek, ev).1 = k then (k, v) else (ek, ev)) = (ek, ev) := if_neg hek
      rw [hhead]
      have hk : k ∈ rest.map Prod.fst := by
        rw [List.map_cons] at h
        rcases List.mem_cons.mp h with h1 | h2
        · exact absurd h1.symm hek
        · exact h2
      simp only [getField, hek, if_false]
      exact ih hk

theorem getField_overwrite_ne {α : Type} (o : JSObj α) (k k' : String) (v : α)
    (hne : k ≠ k') :
    getField (o.map (fun e => if e.1 = k then (k, v) else e)) k' = getField o k' := by
  induction o with
  | nil => simp [getField]
  | cons e rest ih =>
    obtain ⟨ek, ev⟩ := e
    simp only [List.map_cons]
    by_cases hek : ek = k
    · have hhead : (if (ek, ev).1 = k then (k, v) else (ek, ev)) = (k, v) := if_pos hek
      rw [hhead]
      have hek2 : ¬ ek = k' := fun hc => hne (hek ▸ hc)
      simp [getField, hne, hek2, ih]
    · have hhead : (if (ek, ev).1 = k then (k, v) else (ek, ev)) = (ek, ev) := if_neg hek
      rw [hhead]
      simp [getField, ih]

theorem getField_append {α : Type} (o o₂ : JSObj α) (k : String) :
    getField (o ++ o₂) k = ((getField o k).rec (getField o₂ k) fun v => some v) := by
  induction o with
  | nil => simp [getField]
  | cons e rest ih =>
    obtain ⟨ek, ev⟩ := e
    by_cases hek : ek = k
    · simp [getField, hek]
    · simp [getField, hek, ih]

theorem getField_setKey_self {α : Type} (o : JSObj α) (k : String) (v : α) :
    getField (setKey o k v) k = some v := by
  unfold setKey
  by_cases h : k ∈ o.map Prod.fst
  · simpa [h] using getField_overwrite o k v h
  · have hnone : getField o k = none := (getField_eq_none_iff o k).mpr h
    simp [h, getField_append, hnone, getField]

theorem getField_setKey_ne {α : Type} (o : JSObj α) (k k' : String) (v : α)
    (hne : k ≠ k') :
    getField (setKey o k v) k' = getField o k' := by
  unfold setKey
  by_cases h : k ∈ o.map Prod.fst
  · simpa [h] using getField_overwrite_ne o k k' v hne
  · cases hg : getField o k' with
    | none => simp [h, getField_append, hg, getField, hne]
    | some w => simp [h, getField_append, hg]

theorem getField_spread_of_none {α : Type} (s u : JSObj α) (k : String)
    (h : getField u k = none) :
    getField (spread s u) k = getField s k := by
  induction u generalizing s with
  | nil => simp [spread]
  | cons e rest ih =>
    obtain ⟨ek, ev⟩ := e
    by_cases hek : ek = k
    · subst hek
      simp [getField] at h
    · have hrest : getField rest k = none := by
        simpa [getField, hek] using h
      calc getField (spread s ((ek, ev) :: rest)) k
          = getField (spread (setKey s ek ev) rest) k := rfl
        _ = getField (setKey s ek ev) k := ih (setKey s ek ev) hrest
        _ = getField s k := getField_setKey_ne s ek k ev hek

theorem getField_spread_of_some {α : Type} (s u : JSObj α) (k : String) (v : α)
    (hnd : (u.map Prod.fst).Nodup) (h : getField u k = some v) :
    getField (spread s u) k = some v := by
  induction u generalizing s with
  | nil => simp [getField] at h
  | cons e rest ih =>
    obtain ⟨ek, ev⟩ := e
    simp only [List.map_cons, List.nodup_cons] at hnd
    by_cases hek : ek = k
    · subst hek
      have hv : v = ev := by
        simpa [getField] using h.symm
      subst hv
      have hrest : getField rest ek = none :=
        (getField_eq_none_iff rest ek).mpr hnd.1
      calc getField (spread s ((ek, v) :: rest)) ek
          = getField (spread (setKey s ek v) rest) ek := rfl
        _ = getField (setKey s ek v) ek :=
            getField_spread_of_none (setKey s ek v) rest ek hrest
        _ = some v := getField_setKey_self s ek v
    · have hrest : getField rest k = some v := by
        simpa [getField, hek] using h
      exact ih (setKey s ek ev) hnd.2 hrest

theorem spread_nil {α : Type} (s : JSObj α) : spread s [] = s := rfl

/-- A listener function reference: `id` stands for the function object's
identity (the key a JS `Set` deduplicates on), `throws` records whether the
function raises when invoked. -/
structure JListener where
  id : Nat
  throws : Bool
deriving DecidableEq

/-- A middleware function `(nextState, prevState) => state | undefined`,
modelled at the value level; `none` models returning `undefined`.  (The
third `dispatch` parameter of the source signature only matters for
timer-based middleware, which is outside the verified claims.) -/
abbrev Mw (α : Type) : Type := JSObj α → JSObj α → Option (JSObj α)

/-- The store closure state of `createStore`.  Objects live in a heap (the
address of an object is its index, allocation appends), so that reference
identity of state objects is expressible.  `stateRef` is the address held by
the `state` variable; `listeners` is the JS `Set` of listeners in insertion
order; `middleware` is the middleware array from the options. -/
structure JStore (α : Type) where
  heap : List (JSObj α)
  stateRef : Nat
  listeners : List JListener
  middleware : List (Mw α)

/-- Read the object stored at address `r`. -/
def deref {α : Type} (st : JStore α) (r : Nat) : JSObj α :=
  (st.heap[r]?).getD []

/-- `getState()` returns the current state object (its reference). -/
def getState {α : Type} (st : JStore α) : Nat := st.stateRef

/-- The contents of the current state object. -/
def getStateVal {α : Type} (st : JStore α) : JSObj α :=
  deref st st.stateRef

/-- An update description passed to `setState`:
* `fn f` — a function updater; `f` maps the current state contents to the
  result of `produce(state, draft => updater(draft))` (when the recipe
  returns a value, as the snapshot manager does, that value is the result);
* `obj u` — a plain object, merged with `{ ...state, ...updater }`;
* `nonObject` — `null`, `undefined` or another primitive: spreading it into
  `{ ...state, ...updater }` contributes no properties. -/
inductive StateUpdater (α : Type) where
  | fn (f : JSObj α → JSObj α)
  | obj (u : JSObj α)
  | nonObject

/-- The candidate next state computed from the updater, before middleware. -/
def candidateOf {α : Type} (st : JStore α) (u : StateUpdater α) : JSObj α :=
  match u with
  | .fn f => f (getStateVal st)
  | .obj o => spread (getStateVal st) o
  | .nonObject => spread (getStateVal st) []

/-- `applyMiddleware`: fold the middleware array over the candidate state;
a middleware returning `undefined` leaves the accumulated result unchanged,
and every middleware receives the same `prevState`. -/
def applyMiddleware {α : Type} (mws : List (Mw α)) (nextState prevState : JSObj α) :
    JSObj α :=
  mws.foldl
    (fun result mw =>
      match mw result prevState with
      | some r => r
      | none => result)
    nextState

/-- The state contents committed by `setState`: the candidate, piped through
`applyMiddleware` when the middleware array is non-empty. -/
def committedOf {α : Type} (st : JStore α) (u : StateUpdater α) : JSObj α :=
  if st.middleware.isEmpty then candidateOf st u
  else applyMiddleware st.middleware (candidateOf st u) (getStateVal st)

/-- The notification loop `listeners.forEach(l => l(state, prevState))`:
returns the ids invoked in order, and the id of the listener whose exception
aborted the loop (propagating to the `setState` caller), if any. -/
def notifyAll : List JListener → List Nat × Option Nat
  | [] => ([], none)
  | l :: rest =>
    if l.throws then ([l.id], some l.id)
    else
      let r := notifyAll rest
      (l.id :: r.1, r.2)

/-- Everything one `setState` call produces: the updated store closure, the
addresses of the `prevState` copy and the committed state object (the two
arguments handed to every listener), the listener ids notified in order, and
the id of a listener whose exception escaped to the caller, if any. -/
structure SetStateResult (α : Type) where
  store : JStore α
  prevRef : Nat
  nextRef : Nat
  notified : List Nat
  raised : Option Nat

/-- `setState`: allocate `prevState = { ...state }`, compute the candidate
next state from the updater, pipe it through the middleware when present,
commit the result as the new current state object, then run the notification
loop. -/
def setState {α : Type} (st : JStore α) (u : StateUpdater α) : SetStateResult α :=
  let prevContents := getStateVal st
  let prevRef := st.heap.length
  let heap1 := st.heap ++ [prevContents]
  let nextContents := committedOf st u
  let nextRef := heap1.length
  let nr := notifyAll st.listeners
  { store :=
      { heap := heap1 ++ [nextContents]
        stateRef := nextRef
        listeners := st.listeners
        middleware := st.middleware }
    prevRef := prevRef
    nextRef := nextRef
    notified := nr.1
    raised := nr.2 }

/-- `createStore(initialState, { middleware })`: allocate `{ ...initialState }`
as the current state object; the listener set starts empty. -/
def createStore {α : Type} (initialState : JSObj α) (middleware : List (Mw α)) :
    JStore α :=
  { heap := [initialState]
    stateRef := 0
    listeners := []
    middleware := middleware }

/-- `subscribe(listener)`: `Set.add` — appends the listener unless the same
function reference is already registered, in which case the set is unchanged. -/
def subscribe {α : Type} (st : JStore α) (l : JListener) : JStore α :=
  { st with
    listeners := if l ∈ st.listeners then st.listeners else st.listeners ++ [l] }

/-- The disposer `subscription.unsubscribe()`: `Set.delete`. -/
def unsubscribe {α : Type} (st : JStore α) (l : JListener) : JStore α :=
  { st with listeners := st.listeners.erase l }

/-- `destroy()`: clears the listener set — and nothing else; the closure keeps
no destroyed flag, so the state and the update path are untouched. -/
def destroy {α : Type} (st : JStore α) : JStore α :=
  { st with listeners := [] }

/-- `use(selector)`: apply a selector to the current state contents. -/
def useSelector {α β : Type} (st : JStore α) (sel : JSObj α → β) : β :=
  sel (getStateVal st)

theorem store_setState {α : Type} (st : JStore α) (u : StateUpdater α) :
    (setState st u).store =
      { heap := st.heap ++ [getStateVal st] ++ [committedOf st u]
        stateRef := st.heap.length + 1
        listeners := st.listeners
        middleware := st.middleware } := by
  simp [setState]

theorem prevRef_setState {α : Type} (st : JStore α) (u : StateUpdater α) :
    (setState st u).prevRef = st.heap.length := rfl

theorem notified_setState {α : Type} (st : JStore α) (u : StateUpdater α) :
    (setState st u).notified = (notifyAll st.listeners).1 := rfl

theorem getStateVal_setState {α : Type} (st : JStore α) (u : StateUpdater α) :
    getStateVal (setState st u).store = committedOf st u := by
  rw [store_setState]
  show ((st.heap ++ [getStateVal st] ++ [committedOf st u])[st.heap.length + 1]?).getD []
      = committedOf st u
  have h : st.heap.length + 1 = (st.heap ++ [getStateVal st]).length := by simp
  rw [h, List.getElem?_concat_length]
  rfl

theorem deref_setState_old {α : Type} (st : JStore α) (u : StateUpdater α) (r : Nat)
    (hr : r < st.heap.length) :
    deref (setState st u).store r = deref st r := by
  rw [store_setState]
  show ((st.heap ++ [getStateVal st] ++ [committedOf st u])[r]?).getD [] = deref st r
  rw [List.getElem?_append_left (by simp; omega), List.getElem?_append_left hr]
  rfl

theorem deref_setState_prev {α : Type} (st : JStore α) (u : StateUpdater α) :
    deref (setState st u).store st.heap.length = getStateVal st := by
  rw [store_setState]
  show ((st.heap ++ [getStateVal st] ++ [committedOf st u])[st.heap.length]?).getD []
      = getStateVal st
  rw [List.getElem?_append_left (by simp), List.getElem?_concat_length]
  rfl

theorem notifyAll_of_not_throws (ls : List JListener)
    (h : ∀ l ∈ ls, l.throws = false) :
    notifyAll ls = (ls.map JListener.id, none) := by
  induction ls with
  | nil => rfl
  | cons l rest ih =>
    have hl : l.throws = false := h l (List.mem_cons_self l rest)
    have hr := ih (fun x hx => h x (List.mem_cons_of_mem l hx))
    simp [notifyAll, hl, hr]

/-- C1: from current state `s`, `setState(u)` with a plain object `u` commits
a state mapping each key of `u` to the value in `u` and every other field to
its value in `s` (shallow merge), and the object `getState()` returned before
the call keeps exactly its previous contents. -/
theorem setState_shallow_merge {α : Type} (st : JStore α) (u : JSObj α)
    (hmw : st.middleware = [])
    (hnd : (u.map Prod.fst).Nodup)
    (href : st.stateRef < st.heap.length) :
    (∀ k v, getField u k = some v →
        getField (getStateVal (setState st (.obj u)).store) k = some v) ∧
    (∀ k, getField u k = none →
        getField (getStateVal (setState st (.obj u)).store) k =
          getField (getStateVal st) k) ∧
    deref (setState st (.obj u)).store st.stateRef = deref st st.stateRef := by
  have hcommit : getStateVal (setState st (.obj u)).store = spread (getStateVal st) u := by
    rw [getStateVal_setState]
    unfold committedOf
    simp [hmw, candidateOf]
  refine ⟨?_, ?_, ?_⟩
  · intro k v hk
    rw [hcommit]
    exact getField_spread_of_some _ u k v hnd hk
  · intro k hk
    rw [hcommit]
    exact getField_spread_of_none _ u k hk
  · exact deref_setState_old st _ st.stateRef href

/-- Concrete store `createStore({count: 0})` with no middleware. -/
def demoStore : JStore Int := createStore [("count", 0)] []

/-- Witness for C1: on `{count: 0}`, `setState({count: 1})` yields
`getState().count === 1`, keeps absent fields, and leaves the old state
object unchanged. -/
theorem setState_shallow_merge_witness :
    demoStore.middleware = [] ∧
    getField (getStateVal (setState demoStore (.obj [("count", 1)])).store) "count"
      = some 1 := by
  have h := setState_shallow_merge demoStore [("count", 1)] rfl (by decide) (by decide)
  exact ⟨rfl, h.1 "count" 1 rfl⟩

/-- The single listener reference used in the C2 counterexample. -/
def dupListener : JListener := ⟨1, false⟩

/-- C2 counterexample: registering the same listener function reference twice
and committing one `setState` invokes the listener once, not twice (the
notification trace is `[1]`, not `[1, 1]`) — the listener `Set` deduplicates
registrations. -/
theorem subscribe_dup_counterexample :
    (setState
        (subscribe (subscribe (createStore [("count", (0 : Int))] []) dupListener)
          dupListener)
        (.obj [("count", 1)])).notified = [1] ∧
    (setState
        (subscribe (subscribe (createStore [("count", (0 : Int))] []) dupListener)
          dupListener)
        (.obj [("count", 1)])).notified ≠ [1, 1] := by
  exact ⟨rfl, by decide⟩

/-- C2 amended: one committed `setState` invokes the registered listeners in
registration order, exactly once each; registering an already-registered
listener reference is a no-op (a single subscription), not a distinct one. -/
theorem setState_notifies_in_registration_order {α : Type} :
    (∀ (st : JStore α) (l : JListener), l ∈ st.listeners → subscribe st l = st) ∧
    (∀ (st : JStore α) (u : StateUpdater α),
      (∀ l ∈ st.listeners, l.throws = false) →
      (setState st u).notified = st.listeners.map JListener.id) := by
  constructor
  · intro st l hl
    unfold subscribe
    simp [hl]
  · intro st u h
    rw [notified_setState, notifyAll_of_not_throws st.listeners h]

/-- Witness for the amended C2: two distinct listener references registered in
order 1, 2 are notified as [1, 2]; re-registering reference 1 changes nothing. -/
theorem setState_notifies_in_registration_order_witness :
    subscribe (subscribe (subscribe demoStore ⟨1, false⟩) ⟨2, false⟩) ⟨1, false⟩
      = subscribe (subscribe demoStore ⟨1, false⟩) ⟨2, false⟩ ∧
    (setState (subscribe (subscribe demoStore ⟨1, false⟩) ⟨2, false⟩)
        (.obj [("count", 1)])).notified = [1, 2] := by
  constructor
  · exact (setState_notifies_in_registration_order (α := Int)).1
      (subscribe (subscribe demoStore ⟨1, false⟩) ⟨2, false⟩) ⟨1, false⟩ (by decide)
  · exact (setState_notifies_in_registration_order (α := Int)).2
      (subscribe (subscribe demoStore ⟨1, false⟩) ⟨2, false⟩)
      (.obj [("count", 1)]) (by decide)

/-- C3: middleware run strictly in registration order — the middleware
appended last sees the cumulative output of all earlier ones as `nextState`
and the same `prevState`; one returning `undefined` leaves the accumulated
`nextState` unchanged (no revert to `prevState`); and the state `setState`
commits is exactly the pipeline's output on the candidate state. -/
theorem applyMiddleware_pipeline {α : Type} :
    (∀ (mws : List (Mw α)) (m : Mw α) (next prev : JSObj α),
      applyMiddleware (mws ++ [m]) next prev =
        match m (applyMiddleware mws next prev) prev with
        | some r => r
        | none => applyMiddleware mws next prev) ∧
    (∀ (mws : List (Mw α)) (m : Mw α) (next prev : JSObj α),
      m (applyMiddleware mws next prev) prev = none →
      applyMiddleware (mws ++ [m]) next prev = applyMiddleware mws next prev) ∧
    (∀ (st : JStore α) (u : StateUpdater α),
      getStateVal (setState st u).store =
        if st.middleware.isEmpty then candidateOf st u
        else applyMiddleware st.middleware (candidateOf st u) (getStateVal st)) := by
  have hsnoc : ∀ (mws : List (Mw α)) (m : Mw α) (next prev : JSObj α),
      applyMiddleware (mws ++ [m]) next prev =
        match m (applyMiddleware mws next prev) prev with
        | some r => r
        | none => applyMiddleware mws next prev := by
    intro mws m next prev
    unfold applyMiddleware
    rw [List.foldl_append]
    rfl
  refine ⟨hsnoc, ?_, ?_⟩
  · intro mws m next prev hnone
    rw [hsnoc, hnone]
  · intro st u
    rw [getStateVal_setState]
    rfl

/-- Witness for C3: a concrete two-middleware pipeline where the second
middleware returns `undefined` and the first one's output passes through. -/
theorem applyMiddleware_pipeline_witness :
    applyMiddleware
        [fun _ _ => some [("count", (7 : Int))], fun _ _ => none]
        [("count", 1)] [("count", 0)]
      = [("count", 7)] := by
  have h := (applyMiddleware_pipeline (α := Int)).2.1
    [fun _ _ => some [("count", (7 : Int))]] (fun _ _ => none)
    [("count", 1)] [("count", 0)] rfl
  exact h

/-- Store `{count: 0}` with one subscribed listener, used as failing input
for C4 and C5. -/
def c4Store : JStore Int := subscribe (createStore [("count", 0)] []) ⟨1, false⟩

/-- C4 evidence: `setState(null)` (an updater that is neither a function nor
a plain object) is not rejected — no error reaches the caller, a fresh copy
of the unchanged state is committed, and the listener is notified anyway. -/
theorem setState_null_not_rejected :
    (setState c4Store .nonObject).raised = none ∧
    getStateVal (setState c4Store .nonObject).store = [("count", 0)] ∧
    (setState c4Store .nonObject).notified = [1] := by
  exact ⟨rfl, rfl, rfl⟩

/-- C5 evidence: after `destroy()` the listener set is gone, but a
subsequent `setState({count: 5})` still silently commits the new state:
`getState()` changes from `{count: 0}` to `{count: 5}` with no error and no
notification. -/
theorem setState_after_destroy_commits :
    getStateVal (destroy c4Store) = [("count", 0)] ∧
    getStateVal (setState (destroy c4Store) (.obj [("count", 5)])).store
      = [("count", 5)] ∧
    (setState (destroy c4Store) (.obj [("count", 5)])).raised = none ∧
    (setState (destroy c4Store) (.obj [("count", 5)])).notified = [] := by
  exact ⟨rfl, rfl, rfl, rfl⟩

/-- Store `{count: 0}` with three listeners of which the second throws, used
as failing input for C6. -/
def c6Store : JStore Int :=
  subscribe (subscribe (subscribe (createStore [("count", 0)] []) ⟨1, false⟩)
    ⟨2, true⟩) ⟨3, false⟩

/-- C6 evidence: when the second of three listeners throws, the notification
loop stops — listener 3 is never invoked for that update — and the exception
escapes to the `setState` caller instead of being contained. -/
theorem listener_exception_aborts_loop :
    (setState c6Store (.obj [("count", 1)])).notified = [1, 2] ∧
    (setState c6Store (.obj [("count", 1)])).raised = some 2 ∧
    (3 : Nat) ∉ (setState c6Store (.obj [("count", 1)])).notified := by
  refine ⟨rfl, rfl, by decide⟩

/-- C10: on every `setState` call, the `prevState` object handed to the
middleware pipeline and to every notified listener is a freshly allocated
shallow copy of the pre-update state: its address differs from the address
`getState()` returned before the call (and from every other previously
allocated object), while its contents coincide with the pre-update state
contents. -/
theorem setState_prevState_fresh {α : Type} (st : JStore α) (u : StateUpdater α)
    (href : st.stateRef < st.heap.length) :
    (setState st u).prevRef ≠ st.stateRef ∧
    (∀ r, r < st.heap.length → (setState st u).prevRef ≠ r) ∧
    deref (setState st u).store (setState st u).prevRef = deref st st.stateRef := by
  refine ⟨?_, ?_, ?_⟩
  · rw [prevRef_setState]
    omega
  · intro r hr
    rw [prevRef_setState]
    omega
  · rw [prevRef_setState]
    exact deref_setState_prev st u

/-- Witness for C10 on the concrete store `{count: 0}`: the fresh `prevState`
copy is a different object with the same contents. -/
theorem setState_prevState_fresh_witness :
    demoStore.stateRef < demoStore.heap.length ∧
    (setState demoStore (.obj [("count", 1)])).prevRef ≠ demoStore.stateRef ∧
    deref (setState demoStore (.obj [("count", 1)])).store
        (setState demoStore (.obj [("count", 1)])).prevRef
      = deref demoStore demoStore.stateRef := by
  have h := setState_prevState_fresh demoStore (.obj [("count", 1)]) (by decide)
  exact ⟨by decide, h.1, h.2.2⟩

/-- The mutable cache closed over by a dependency-based `derived` selector:
the compute function's last result (`none` models `undefined`, the initial
value) and the last observed array of dependency-selector outputs (initially
empty). -/
structure DerivedCache (D R : Type) where
  lastResult : Option R
  lastDepsValues : List D
deriving DecidableEq

/-- The freshly created cache of `derived(compute, { deps })`. -/
def initialDerivedCache (D R : Type) : DerivedCache D R := ⟨none, []⟩

/-- The `depsChanged` test of `derived`: true when no dependency array was
observed yet, or when some freshly extracted dependency value fails the
configured equality against the previously observed value at the same index.
(The source indexes `lastDepsValues[i]` from `depsValues`; the zip agrees
with that in every reachable cache, where the two arrays have equal length.) -/
def depsChangedB {D : Type} (equals : D → D → Bool) (newVals oldVals : List D) :
    Bool :=
  oldVals.isEmpty || (newVals.zip oldVals).any (fun p => !equals p.1 p.2)

/-- One call of the selector returned by `derived(compute, { equals, deps })`
with a non-empty `deps` array: extract the dependency values from the state,
return the cached result when they are unchanged and a cached result exists,
otherwise recompute and cache.  The third component records whether `compute`
was invoked. -/
def derivedStep {T D R : Type} (deps : List (T → D)) (equals : D → D → Bool)
    (compute : T → R) (c : DerivedCache D R) (state : T) :
    R × DerivedCache D R × Bool :=
  let depsValues := deps.map (fun dep => dep state)
  match c.lastResult, depsChangedB equals depsValues c.lastDepsValues with
  | some r, false => (r, c, false)
  | _, _ => (compute state, ⟨some (compute state), depsValues⟩, true)

/-- C7: a dependency-memoized selector call re-evaluates the dependency
selectors against the new state and compares element-wise with the
configured equality against the previously observed outputs; if every
element compares equal it returns the cached value without invoking the
compute function, and if some element differs it invokes the compute
function, returns the fresh value and caches it with the new dependency
array. -/
theorem derived_memoization {T D R : Type} (deps : List (T → D))
    (equals : D → D → Bool) (compute : T → R) (c : DerivedCache D R) (s : T)
    (r : R)
    (hne : deps ≠ [])
    (hlen : c.lastDepsValues.length = deps.length)
    (hres : c.lastResult = some r) :
    ((((deps.map (fun d => d s)).zip c.lastDepsValues).all
        (fun p => equals p.1 p.2)) = true →
      derivedStep deps equals compute c s = (r, c, false)) ∧
    ((((deps.map (fun d => d s)).zip c.lastDepsValues).any
        (fun p => !equals p.1 p.2)) = true →
      derivedStep deps equals compute c s
        = (compute s, ⟨some (compute s), deps.map (fun d => d s)⟩, true)) := by
  have hisEmpty : c.lastDepsValues.isEmpty = false := by
    cases hl : c.lastDepsValues with
    | nil =>
      exfalso
      rw [hl] at hlen
      exact hne (List.eq_nil_of_length_eq_zero hlen.symm)
    | cons d ds => rfl
  constructor
  · intro hall
    have hany : ((deps.map (fun d => d s)).zip c.lastDepsValues).any
        (fun p => !equals p.1 p.2) = false := by
      cases hv : ((deps.map (fun d => d s)).zip c.lastDepsValues).any
          (fun p => !equals p.1 p.2) with
      | false => rfl
      | true =>
        exfalso
        obtain ⟨p, hp, hneg⟩ := List.any_eq_true.mp hv
        have heq := List.all_eq_true.mp hall p hp
        rw [heq] at hneg
        simp at hneg
    have hchanged : depsChangedB equals (deps.map (fun d => d s))
        c.lastDepsValues = false := by
      unfold depsChangedB
      rw [hisEmpty, hany]
      rfl
    simp only [derivedStep, hres, hchanged]
  · intro hany
    have hchanged : depsChangedB equals (deps.map (fun d => d s))
        c.lastDepsValues = true := by
      unfold depsChangedB
      rw [hany]
      simp
    simp only [derivedStep, hres, hchanged]

/-- The dependency selector list of the C7 witness: the first component of
an (Int, Int) state. -/
def c7Deps : List (Int × Int → Int) := [fun p => p.1]

/-- A C7 witness cache: compute previously returned 10 when the dependency
value was 5. -/
def c7Cache : DerivedCache Int Int := ⟨some 10, [5]⟩

/-- Witness for C7: with dependency `fst`, a call at a state whose `fst` is
unchanged (5) returns the cached 10 without recomputing, and a call at a
state whose `fst` changed to 6 recomputes `fst * 2 = 12` and re-caches. -/
theorem derived_memoization_witness :
    derivedStep c7Deps (fun a b => a == b) (fun p => p.1 * 2) c7Cache (5, 99)
      = (10, c7Cache, false) ∧
    derivedStep c7Deps (fun a b => a == b) (fun p => p.1 * 2) c7Cache (6, 0)
      = (12, ⟨some 12, [6]⟩, true) := by
  constructor
  · exact (derived_memoization c7Deps (fun a b => a == b) (fun p => p.1 * 2)
      c7Cache (5, 99) 10 (List.cons_ne_nil _ _) rfl rfl).1 rfl
  · exact (derived_memoization c7Deps (fun a b => a == b) (fun p => p.1 * 2)
      c7Cache (6, 0) 10 (List.cons_ne_nil _ _) rfl rfl).2 rfl

/-- A snapshot entry `{ state, description }`: the captured state contents
(a shallow copy of the store state at capture time) and the optional
description.  The wall-clock timestamp field plays no role in any verified
property and is omitted. -/
structure SnapEntry (α : Type) where
  state : JSObj α
  description : Option String
deriving DecidableEq

/-- The closure state of `createSnapshotManager`: the ordered snapshot
sequence, the cursor `currentIndex` (−1 when the sequence is empty), and the
configured bound. -/
structure SnapMgr (α : Type) where
  snapshots : List (SnapEntry α)
  currentIndex : Int
  maxSnapshots : Nat
deriving DecidableEq

/-- `takeSnapshot(description?)`: capture the current store state; when the
cursor is not at the end, truncate the stale redo branch first; append;
move the cursor to the new last index; when the bound is now exceeded, evict
the oldest entry and decrement the cursor. -/
def takeSnapshot {α : Type} (mgr : SnapMgr α) (st : JStore α)
    (desc : Option String) : SnapMgr α :=
  let snap : SnapEntry α := ⟨getStateVal st, desc⟩
  let kept := if mgr.currentIndex < (mgr.snapshots.length : Int) - 1
              then mgr.snapshots.take (mgr.currentIndex + 1).toNat
              else mgr.snapshots
  let appended := kept ++ [snap]
  if appended.length > mgr.maxSnapshots then
    ⟨appended.drop 1, ((appended.length : Int) - 1) - 1, mgr.maxSnapshots⟩
  else
    ⟨appended, (appended.length : Int) - 1, mgr.maxSnapshots⟩

/-- `applySnapshot(index)`: when the index is within bounds, move the cursor
there and replace the store state through a normal `setState` call with a
function updater returning the captured state.  (The inner `none` branch is
unreachable: the guard guarantees the lookup succeeds.)  Returns the new
manager, the new store, and the listener ids notified by the `setState`. -/
def applySnapshot {α : Type} (mgr : SnapMgr α) (st : JStore α) (i : Int) :
    SnapMgr α × JStore α × List Nat :=
  if 0 ≤ i ∧ i < (mgr.snapshots.length : Int) then
    match mgr.snapshots[i.toNat]? with
    | some e =>
      ({ mgr with currentIndex := i },
        (setState st (.fn (fun _ => e.state))).store,
        (setState st (.fn (fun _ => e.state))).notified)
    | none => (mgr, st, [])
  else (mgr, st, [])

/-- `canUndo()`: the cursor is past the first entry. -/
def canUndo {α : Type} (mgr : SnapMgr α) : Bool := mgr.currentIndex > 0

/-- `canRedo()`: the cursor is before the last entry. -/
def canRedo {α : Type} (mgr : SnapMgr α) : Bool :=
  mgr.currentIndex < (mgr.snapshots.length : Int) - 1

/-- `undo()`: apply the snapshot before the cursor when possible. -/
def undo {α : Type} (mgr : SnapMgr α) (st : JStore α) :
    SnapMgr α × JStore α × List Nat :=
  if canUndo mgr then applySnapshot mgr st (mgr.currentIndex - 1)
  else (mgr, st, [])

/-- `redo()`: apply the snapshot after the cursor when possible. -/
def redo {α : Type} (mgr : SnapMgr α) (st : JStore α) :
    SnapMgr α × JStore α × List Nat :=
  if canRedo mgr then applySnapshot mgr st (mgr.currentIndex + 1)
  else (mgr, st, [])

/-- `clearSnapshots()`: drop the whole sequence and reset the cursor. -/
def clearSnapshots {α : Type} (mgr : SnapMgr α) : SnapMgr α :=
  ⟨[], -1, mgr.maxSnapshots⟩

/-- `createSnapshotManager(store, { maxSnapshots })`: start with an empty
sequence and cursor −1, then take the initial snapshot. -/
def createSnapshotManager {α : Type} (st : JStore α) (maxSnapshots : Nat) :
    SnapMgr α :=
  takeSnapshot ⟨[], -1, maxSnapshots⟩ st (some "Initial state")

theorem takeSnapshot_build {α : Type} (mgr : SnapMgr α) (kept : List (SnapEntry α))
    (snap : SnapEntry α)
    (hkl : kept.length + 1 ≤ mgr.maxSnapshots) :
    (if (kept ++ [snap]).length > mgr.maxSnapshots then
        (⟨(kept ++ [snap]).drop 1, (((kept ++ [snap]).length : Int) - 1) - 1,
          mgr.maxSnapshots⟩ : SnapMgr α)
      else ⟨kept ++ [snap], ((kept ++ [snap]).length : Int) - 1, mgr.maxSnapshots⟩)
      = ⟨kept ++ [snap], (kept.length : Int), mgr.maxSnapshots⟩ := by
  have hev : ¬ (kept ++ [snap]).length > mgr.maxSnapshots := by
    rw [List.length_append]
    simp only [List.length_cons, List.length_nil]
    omega
  rw [if_neg hev]
  have hidx : (((kept ++ [snap]).length : Int) - 1) = (kept.length : Int) := by
    rw [List.length_append]
    simp only [List.length_cons, List.length_nil]
    push_cast
    omega
  rw [hidx]

theorem takeSnapshot_no_evict {α : Type} (mgr : SnapMgr α) (st : JStore α)
    (desc : Option String)
    (hroom : mgr.snapshots.length + 1 ≤ mgr.maxSnapshots) :
    ∃ kept : List (SnapEntry α),
      kept.length ≤ mgr.snapshots.length ∧
      takeSnapshot mgr st desc =
        ⟨kept ++ [⟨getStateVal st, desc⟩], (kept.length : Int),
          mgr.maxSnapshots⟩ := by
  by_cases htr : mgr.currentIndex < (mgr.snapshots.length : Int) - 1
  · refine ⟨mgr.snapshots.take (mgr.currentIndex + 1).toNat, ?_, ?_⟩
    · rw [List.length_take]
      omega
    · have hkl : (mgr.snapshots.take (mgr.currentIndex + 1).toNat).length + 1
          ≤ mgr.maxSnapshots := by
        rw [List.length_take]
        omega
      have hkept : (if mgr.currentIndex < (mgr.snapshots.length : Int) - 1
          then mgr.snapshots.take (mgr.currentIndex + 1).toNat
          else mgr.snapshots) = mgr.snapshots.take (mgr.currentIndex + 1).toNat :=
        if_pos htr
      simp only [takeSnapshot, hkept]
      exact takeSnapshot_build mgr _ _ hkl
  · refine ⟨mgr.snapshots, Nat.le_refl _, ?_⟩
    have hkept : (if mgr.currentIndex < (mgr.snapshots.length : Int) - 1
        then mgr.snapshots.take (mgr.currentIndex + 1).toNat
        else mgr.snapshots) = mgr.snapshots := if_neg htr
    simp only [takeSnapshot, hkept]
    exact takeSnapshot_build mgr _ _ (by omega)

theorem takeSnapshot_at_end {α : Type} (mgr : SnapMgr α) (st : JStore α)
    (desc : Option String)
    (hend : mgr.currentIndex = (mgr.snapshots.length : Int) - 1)
    (hroom : mgr.snapshots.length + 1 ≤ mgr.maxSnapshots) :
    takeSnapshot mgr st desc =
      ⟨mgr.snapshots ++ [⟨getStateVal st, desc⟩], (mgr.snapshots.length : Int),
        mgr.maxSnapshots⟩ := by
  have htr : ¬ mgr.currentIndex < (mgr.snapshots.length : Int) - 1 := by
    omega
  have hkept : (if mgr.currentIndex < (mgr.snapshots.length : Int) - 1
      then mgr.snapshots.take (mgr.currentIndex + 1).toNat
      else mgr.snapshots) = mgr.snapshots := if_neg htr
  simp only [takeSnapshot, hkept]
  exact takeSnapshot_build mgr _ _ (by omega)

theorem applySnapshot_spec {α : Type} (mgr : SnapMgr α) (st : JStore α) (n : Nat)
    (e : SnapEntry α) (hn : n < mgr.snapshots.length)
    (he : mgr.snapshots[n]? = some e) :
    applySnapshot mgr st (n : Int) =
      ({ mgr with currentIndex := (n : Int) },
        (setState st (.fn (fun _ => e.state))).store,
        (setState st (.fn (fun _ => e.state))).notified) := by
  have hc : 0 ≤ (n : Int) ∧ (n : Int) < (mgr.snapshots.length : Int) := by
    constructor
    · exact Int.ofNat_nonneg n
    · exact_mod_cast hn
  have ht : ((n : Int)).toNat = n := Int.toNat_natCast n
  simp only [applySnapshot, if_pos hc, ht, he]

theorem getElem?_append2_left {β : Type} (l : List β) (a b : β) :
    ((l ++ [a]) ++ [b])[l.length]? = some a := by
  rw [List.getElem?_append_left (by simp), List.getElem?_concat_length]

theorem getElem?_append2_right {β : Type} (l : List β) (a b : β) :
    ((l ++ [a]) ++ [b])[l.length + 1]? = some b := by
  have h : l.length + 1 = (l ++ [a]).length := by simp
  rw [h, List.getElem?_concat_length]

/-- The snapshot-manager invariant: when the sequence is empty the cursor is
−1; when it is non-empty the cursor is a valid index into it; and the
sequence length never exceeds the configured bound. -/
abbrev SnapInv {α : Type} (mgr : SnapMgr α) : Prop :=
  (mgr.snapshots = [] → mgr.currentIndex = -1) ∧
  (mgr.snapshots ≠ [] →
    0 ≤ mgr.currentIndex ∧ mgr.currentIndex < (mgr.snapshots.length : Int)) ∧
  mgr.snapshots.length ≤ mgr.maxSnapshots

/-- One snapshot-manager operation, carrying the store it reads at that
moment (the store contents are irrelevant to the manager invariant). -/
inductive SnapOp (α : Type) where
  | take (st : JStore α) (desc : Option String)
  | applyAt (st : JStore α) (i : Int)
  | undoOp (st : JStore α)
  | redoOp (st : JStore α)
  | clear

/-- The manager state after one operation. -/
def snapStep {α : Type} (mgr : SnapMgr α) : SnapOp α → SnapMgr α
  | .take st desc => takeSnapshot mgr st desc
  | .applyAt st i => (applySnapshot mgr st i).1
  | .undoOp st => (undo mgr st).1
  | .redoOp st => (redo mgr st).1
  | .clear => clearSnapshots mgr

/-- The manager state after a sequence of operations. -/
def snapRun {α : Type} (mgr : SnapMgr α) : List (SnapOp α) → SnapMgr α
  | [] => mgr
  | op :: rest => snapRun (snapStep mgr op) rest

theorem takeSnapshot_inv {α : Type} (mgr : SnapMgr α) (st : JStore α)
    (desc : Option String) (hmax : 1 ≤ mgr.maxSnapshots) (hinv : SnapInv mgr) :
    SnapInv (takeSnapshot mgr st desc) := by
  obtain ⟨hemp, hne, hbound⟩ := hinv
  have hmain : ∀ kept : List (SnapEntry α), kept.length ≤ mgr.snapshots.length →
      SnapInv (if (kept ++ [(⟨getStateVal st, desc⟩ : SnapEntry α)]).length
            > mgr.maxSnapshots then
          (⟨(kept ++ [(⟨getStateVal st, desc⟩ : SnapEntry α)]).drop 1,
            (((kept ++ [(⟨getStateVal st, desc⟩ : SnapEntry α)]).length : Int) - 1) - 1,
            mgr.maxSnapshots⟩ : SnapMgr α)
        else ⟨kept ++ [(⟨getStateVal st, desc⟩ : SnapEntry α)],
          ((kept ++ [(⟨getStateVal st, desc⟩ : SnapEntry α)]).length : Int) - 1,
          mgr.maxSnapshots⟩) := by
    intro kept hkl
    have hlapp : (kept ++ [(⟨getStateVal st, desc⟩ : SnapEntry α)]).length
        = kept.length + 1 := by
      rw [List.length_append]
      simp
    split
    next hgt =>
      rw [hlapp] at hgt
      have hkpos : 1 ≤ kept.length := by omega
      refine ⟨?_, ?_, ?_⟩
      · intro h
        exfalso
        have hl := congrArg List.length h
        simp only [List.length_drop, hlapp, List.length_nil] at hl
        omega
      · intro h2
        constructor
        · show (0 : Int) ≤
            (((kept ++ [(⟨getStateVal st, desc⟩ : SnapEntry α)]).length : Int) - 1) - 1
          rw [hlapp]
          push_cast
          omega
        · show (((kept ++ [(⟨getStateVal st, desc⟩ : SnapEntry α)]).length : Int) - 1) - 1
            < (((kept ++ [(⟨getStateVal st, desc⟩ : SnapEntry α)]).drop 1).length : Int)
          rw [List.length_drop, hlapp]
          push_cast
          omega
      · show ((kept ++ [(⟨getStateVal st, desc⟩ : SnapEntry α)]).drop 1).length
            ≤ mgr.maxSnapshots
        rw [List.length_drop, hlapp]
        omega
    next hng =>
      rw [hlapp] at hng
      refine ⟨?_, ?_, ?_⟩
      · intro h
        exfalso
        have hl := congrArg List.length h
        rw [hlapp] at hl
        simp at hl
      · intro h2
        constructor
        · show (0 : Int) ≤
            ((kept ++ [(⟨getStateVal st, desc⟩ : SnapEntry α)]).length : Int) - 1
          rw [hlapp]
          push_cast
          omega
        · show ((kept ++ [(⟨getStateVal st, desc⟩ : SnapEntry α)]).length : Int) - 1
            < ((kept ++ [(⟨getStateVal st, desc⟩ : SnapEntry α)]).length : Int)
          omega
      · show (kept ++ [(⟨getStateVal st, desc⟩ : SnapEntry α)]).length ≤ mgr.maxSnapshots
        rw [hlapp]
        omega
  by_cases htr : mgr.currentIndex < (mgr.snapshots.length : Int) - 1
  · have hkept : (if mgr.currentIndex < (mgr.snapshots.length : Int) - 1
        then mgr.snapshots.take (mgr.currentIndex + 1).toNat
        else mgr.snapshots) = mgr.snapshots.take (mgr.currentIndex + 1).toNat :=
      if_pos htr
    simp only [takeSnapshot, hkept]
    exact hmain (mgr.snapshots.take (mgr.currentIndex + 1).toNat)
      (by rw [List.length_take]; omega)
  · have hkept : (if mgr.currentIndex < (mgr.snapshots.length : Int) - 1
        then mgr.snapshots.take (mgr.currentIndex + 1).toNat
        else mgr.snapshots) = mgr.snapshots := if_neg htr
    simp only [takeSnapshot, hkept]
    exact hmain mgr.snapshots (Nat.le_refl _)

theorem applySnapshot_inv {α : Type} (mgr : SnapMgr α) (st : JStore α) (i : Int)
    (hinv : SnapInv mgr) : SnapInv (applySnapshot mgr st i).1 := by
  unfold applySnapshot
  split
  next hc =>
    cases hg : mgr.snapshots[i.toNat]? with
    | some e =>
      simp only [hg]
      obtain ⟨hemp, hne, hbound⟩ := hinv
      refine ⟨?_, ?_, hbound⟩
      · intro h
        exfalso
        rw [h] at hc
        simp at hc
        omega
      · intro h2
        exact hc
    | none =>
      simp only [hg]
      exact hinv
  next => exact hinv

theorem undo_inv {α : Type} (mgr : SnapMgr α) (st : JStore α)
    (hinv : SnapInv mgr) : SnapInv (undo mgr st).1 := by
  unfold undo
  split
  · exact applySnapshot_inv mgr st _ hinv
  · exact hinv

theorem redo_inv {α : Type} (mgr : SnapMgr α) (st : JStore α)
    (hinv : SnapInv mgr) : SnapInv (redo mgr st).1 := by
  unfold redo
  split
  · exact applySnapshot_inv mgr st _ hinv
  · exact hinv

theorem clearSnapshots_inv {α : Type} (mgr : SnapMgr α) :
    SnapInv (clearSnapshots mgr) :=
  ⟨fun _ => rfl, fun h => absurd rfl h, Nat.zero_le _⟩

theorem takeSnapshot_max {α : Type} (mgr : SnapMgr α) (st : JStore α)
    (desc : Option String) :
    (takeSnapshot mgr st desc).maxSnapshots = mgr.maxSnapshots := by
  simp only [takeSnapshot]
  split
  · split
    · rfl
    · rfl
  · split
    · rfl
    · rfl

theorem applySnapshot_max {α : Type} (mgr : SnapMgr α) (st : JStore α) (i : Int) :
    (applySnapshot mgr st i).1.maxSnapshots = mgr.maxSnapshots := by
  unfold applySnapshot
  split
  · cases hg : mgr.snapshots[i.toNat]? with
    | some e => simp only [hg]
    | none => simp only [hg]
  · rfl

theorem snapStep_max {α : Type} (mgr : SnapMgr α) (op : SnapOp α) :
    (snapStep mgr op).maxSnapshots = mgr.maxSnapshots := by
  cases op with
  | take st desc => exact takeSnapshot_max mgr st desc
  | applyAt st i => exact applySnapshot_max mgr st i
  | undoOp st =>
    show (undo mgr st).1.maxSnapshots = mgr.maxSnapshots
    unfold undo
    split
    · exact applySnapshot_max mgr st _
    · rfl
  | redoOp st =>
    show (redo mgr st).1.maxSnapshots = mgr.maxSnapshots
    unfold redo
    split
    · exact applySnapshot_max mgr st _
    · rfl
  | clear => rfl

theorem snapRun_inv {α : Type} (ops : List (SnapOp α)) (mgr : SnapMgr α)
    (hmax : 1 ≤ mgr.maxSnapshots) (hinv : SnapInv mgr) :
    SnapInv (snapRun mgr ops) := by
  induction ops generalizing mgr with
  | nil => exact hinv
  | cons op rest ih =>
    have hstep : SnapInv (snapStep mgr op) := by
      cases op with
      | take st desc => exact takeSnapshot_inv mgr st desc hmax hinv
      | applyAt st i => exact applySnapshot_inv mgr st i hinv
      | undoOp st => exact undo_inv mgr st hinv
      | redoOp st => exact redo_inv mgr st hinv
      | clear => exact clearSnapshots_inv mgr
    have hmax2 : 1 ≤ (snapStep mgr op).maxSnapshots := by
      rw [snapStep_max]
      exact hmax
    exact ih (snapStep mgr op) hmax2 hstep

theorem snapRun_max {α : Type} (ops : List (SnapOp α)) (mgr : SnapMgr α) :
    (snapRun mgr ops).maxSnapshots = mgr.maxSnapshots := by
  induction ops generalizing mgr with
  | nil => rfl
  | cons op rest ih => exact (ih (snapStep mgr op)).trans (snapStep_max mgr op)

/-- C9: for a manager configured with `maxSnapshots ≥ 1`, after construction
and after any sequence of `takeSnapshot`, `applySnapshot`, `undo`, `redo`
and `clearSnapshots` operations, the cursor is a valid index whenever the
snapshot sequence is non-empty, and the sequence length never exceeds the
configured `maxSnapshots`. -/
theorem snapshot_manager_invariant {α : Type} (st0 : JStore α)
    (maxSnapshots : Nat) (hmax : 1 ≤ maxSnapshots) (ops : List (SnapOp α)) :
    SnapInv (snapRun (createSnapshotManager st0 maxSnapshots) ops) ∧
    (snapRun (createSnapshotManager st0 maxSnapshots) ops).maxSnapshots
      = maxSnapshots := by
  have hinv0 : SnapInv (⟨[], -1, maxSnapshots⟩ : SnapMgr α) :=
    ⟨fun _ => rfl, fun h => absurd rfl h, Nat.zero_le _⟩
  have hinit : SnapInv (createSnapshotManager st0 maxSnapshots) :=
    takeSnapshot_inv _ st0 _ hmax hinv0
  have hm : (createSnapshotManager st0 maxSnapshots).maxSnapshots = maxSnapshots :=
    takeSnapshot_max _ _ _
  constructor
  · exact snapRun_inv ops _ (by rw [hm]; exact hmax) hinit
  · rw [snapRun_max, hm]

/-- Witness for C9: a bound-2 manager driven through three takes (forcing an
eviction), an undo, and a clear keeps the invariant. -/
theorem snapshot_manager_invariant_witness :
    1 ≤ 2 ∧ SnapInv (snapRun (createSnapshotManager demoStore 2)
      [SnapOp.take demoStore none, SnapOp.take demoStore none,
       SnapOp.take demoStore none, SnapOp.undoOp demoStore, SnapOp.clear]) :=
  ⟨by decide, (snapshot_manager_invariant demoStore 2 (by decide)
    [SnapOp.take demoStore none, SnapOp.take demoStore none,
     SnapOp.take demoStore none, SnapOp.undoOp demoStore, SnapOp.clear]).1⟩

theorem listeners_setState {α : Type} (st : JStore α) (u : StateUpdater α) :
    (setState st u).store.listeners = st.listeners := rfl

theorem middleware_setState {α : Type} (st : JStore α) (u : StateUpdater α) :
    (setState st u).store.middleware = st.middleware := rfl

theorem getStateVal_setState_fn {α : Type} (st : JStore α) (f : JSObj α → JSObj α)
    (hmw : st.middleware = []) :
    getStateVal (setState st (.fn f)).store = f (getStateVal st) := by
  rw [getStateVal_setState]
  unfold committedOf
  simp [hmw, candidateOf]

theorem undo_core {α : Type} (pre : List (SnapEntry α)) (e0 e1 : SnapEntry α)
    (mx : Nat) (stA : JStore α) :
    undo (⟨(pre ++ [e0]) ++ [e1], ((pre ++ [e0]).length : Int), mx⟩ : SnapMgr α) stA
      = (⟨(pre ++ [e0]) ++ [e1], (pre.length : Int), mx⟩,
         (setState stA (.fn (fun _ => e0.state))).store,
         (setState stA (.fn (fun _ => e0.state))).notified) := by
  have hcu : canUndo
      (⟨(pre ++ [e0]) ++ [e1], ((pre ++ [e0]).length : Int), mx⟩ : SnapMgr α)
      = true := by
    simp only [canUndo]
    rw [decide_eq_true_eq]
    show (0 : Int) < ((pre ++ [e0]).length : Int)
    rw [List.length_append]
    simp only [List.length_cons, List.length_nil]
    push_cast
    omega
  have hidx : ((⟨(pre ++ [e0]) ++ [e1], ((pre ++ [e0]).length : Int), mx⟩ :
      SnapMgr α).currentIndex - 1) = ((pre.length : Nat) : Int) := by
    show ((pre ++ [e0]).length : Int) - 1 = ((pre.length : Nat) : Int)
    rw [List.length_append]
    push_cast
    simp
  unfold undo
  rw [if_pos hcu, hidx]
  exact applySnapshot_spec _ stA pre.length e0
    (by rw [List.length_append, List.length_append]
        simp only [List.length_cons, List.length_nil]
        omega)
    (getElem?_append2_left pre e0 e1)

theorem redo_core {α : Type} (pre : List (SnapEntry α)) (e0 e1 : SnapEntry α)
    (mx : Nat) (stA : JStore α) :
    redo (⟨(pre ++ [e0]) ++ [e1], (pre.length : Int), mx⟩ : SnapMgr α) stA
      = (⟨(pre ++ [e0]) ++ [e1], ((pre.length : Nat) : Int) + 1, mx⟩,
         (setState stA (.fn (fun _ => e1.state))).store,
         (setState stA (.fn (fun _ => e1.state))).notified) := by
  have hcr : canRedo
      (⟨(pre ++ [e0]) ++ [e1], (pre.length : Int), mx⟩ : SnapMgr α) = true := by
    simp only [canRedo]
    rw [decide_eq_true_eq]
    show (pre.length : Int) < (((pre ++ [e0]) ++ [e1]).length : Int) - 1
    rw [List.length_append, List.length_append]
    simp only [List.length_cons, List.length_nil]
    push_cast
    omega
  have hidx : ((⟨(pre ++ [e0]) ++ [e1], (pre.length : Int), mx⟩ :
      SnapMgr α).currentIndex + 1) = ((pre.length + 1 : Nat) : Int) := by
    show (pre.length : Int) + 1 = ((pre.length + 1 : Nat) : Int)
    push_cast
    rfl
  unfold redo
  rw [if_pos hcr, hidx]
  have h := applySnapshot_spec
    (⟨(pre ++ [e0]) ++ [e1], (pre.length : Int), mx⟩ : SnapMgr α) stA
    (pre.length + 1) e1
    (by rw [List.length_append, List.length_append]
        simp only [List.length_cons, List.length_nil]
        omega)
    (getElem?_append2_right pre e0 e1)
  rw [h]

/-- C8: on a middleware-free store with non-throwing listeners and an
attached snapshot manager satisfying the cursor invariant with two free
slots under the bound, the sequence takeSnapshot; mutate; takeSnapshot;
undo restores `getState()` to the state captured by the first of those
snapshots; a subsequent redo restores the mutated state; and both
restorations happen through a normal `setState` call, notifying the store's
listeners. -/
theorem snapshot_undo_redo_roundtrip {α : Type} (st st1 st2 st3 : JStore α)
    (mgr m1 m2 m3 : SnapMgr α) (u : JSObj α) (tr2 tr3 : List Nat)
    (hmw : st.middleware = [])
    (hnothrow : ∀ l ∈ st.listeners, l.throws = false)
    (hroom : mgr.snapshots.length + 2 ≤ mgr.maxSnapshots)
    (h1 : m1 = takeSnapshot mgr st none)
    (h2 : st1 = (setState st (.obj u)).store)
    (h3 : m2 = takeSnapshot m1 st1 none)
    (h4a : m3 = (undo m2 st1).1)
    (h4b : st2 = (undo m2 st1).2.1)
    (h4c : tr2 = (undo m2 st1).2.2)
    (h5a : st3 = (redo m3 st2).2.1)
    (h5b : tr3 = (redo m3 st2).2.2) :
    getStateVal st2 = getStateVal st ∧
    getStateVal st3 = getStateVal st1 ∧
    tr2 = st.listeners.map JListener.id ∧
    tr3 = st.listeners.map JListener.id := by
  obtain ⟨kept, hkle, hm1eq⟩ := takeSnapshot_no_evict mgr st none (by omega)
  rw [hm1eq] at h1
  have hl1 : st1.listeners = st.listeners := by
    rw [h2, listeners_setState]
  have hw1 : st1.middleware = [] := by
    rw [h2, middleware_setState, hmw]
  have h3' : m2 = ⟨(kept ++ [(⟨getStateVal st, none⟩ : SnapEntry α)])
      ++ [(⟨getStateVal st1, none⟩ : SnapEntry α)],
      ((kept ++ [(⟨getStateVal st, none⟩ : SnapEntry α)]).length : Int),
      mgr.maxSnapshots⟩ := by
    rw [h3, h1]
    exact takeSnapshot_at_end
      (⟨kept ++ [(⟨getStateVal st, none⟩ : SnapEntry α)], (kept.length : Int),
        mgr.maxSnapshots⟩ : SnapMgr α) st1 none
      (by show (kept.length : Int) =
            ((kept ++ [(⟨getStateVal st, none⟩ : SnapEntry α)]).length : Int) - 1
          rw [List.length_append]
          simp only [List.length_cons, List.length_nil]
          push_cast
          omega)
      (by show (kept ++ [(⟨getStateVal st, none⟩ : SnapEntry α)]).length + 1
            ≤ mgr.maxSnapshots
          rw [List.length_append]
          simp only [List.length_cons, List.length_nil]
          omega)
  have hundo := undo_core kept (⟨getStateVal st, none⟩ : SnapEntry α)
    (⟨getStateVal st1, none⟩ : SnapEntry α) mgr.maxSnapshots st1
  rw [← h3'] at hundo
  have hst2 : st2 = (setState st1 (.fn (fun _ => getStateVal st))).store := by
    rw [h4b, hundo]
  have hl2 : st2.listeners = st.listeners := by
    rw [hst2, listeners_setState, hl1]
  have hw2 : st2.middleware = [] := by
    rw [hst2, middleware_setState, hw1]
  have hm3 : m3 = ⟨(kept ++ [(⟨getStateVal st, none⟩ : SnapEntry α)])
      ++ [(⟨getStateVal st1, none⟩ : SnapEntry α)], (kept.length : Int),
      mgr.maxSnapshots⟩ := by
    rw [h4a, hundo]
  have hredo := redo_core kept (⟨getStateVal st, none⟩ : SnapEntry α)
    (⟨getStateVal st1, none⟩ : SnapEntry α) mgr.maxSnapshots st2
  rw [← hm3] at hredo
  have hst3 : st3 = (setState st2 (.fn (fun _ => getStateVal st1))).store := by
    rw [h5a, hredo]
  refine ⟨?_, ?_, ?_, ?_⟩
  · rw [hst2, getStateVal_setState_fn st1 _ hw1]
  · rw [hst3, getStateVal_setState_fn st2 _ hw2]
  · rw [h4c, hundo]
    show (setState st1 (.fn (fun _ => getStateVal st))).notified = _
    rw [notified_setState, hl1, notifyAll_of_not_throws st.listeners hnothrow]
  · rw [h5b, hredo]
    show (setState st2 (.fn (fun _ => getStateVal st1))).notified = _
    rw [notified_setState, hl2, notifyAll_of_not_throws st.listeners hnothrow]

/-- The snapshot manager attached to the C8 witness store. -/
def c8Mgr : SnapMgr Int := createSnapshotManager demoStore 10

/-- First explicit snapshot of the C8 witness run. -/
def c8M1 : SnapMgr Int := takeSnapshot c8Mgr demoStore none

/-- The mutated store of the C8 witness run. -/
def c8St1 : JStore Int := (setState demoStore (.obj [("count", 1)])).store

/-- Second explicit snapshot of the C8 witness run. -/
def c8M2 : SnapMgr Int := takeSnapshot c8M1 c8St1 none

/-- Result of the undo step of the C8 witness run. -/
def c8UndoRes : SnapMgr Int × JStore Int × List Nat := undo c8M2 c8St1

/-- Result of the redo step of the C8 witness run. -/
def c8RedoRes : SnapMgr Int × JStore Int × List Nat :=
  redo c8UndoRes.1 c8UndoRes.2.1

/-- Witness for C8: on `{count: 0}` mutated to `{count: 1}`, undo restores
the pre-mutation state and redo restores the mutated state. -/
theorem snapshot_undo_redo_roundtrip_witness :
    getStateVal c8UndoRes.2.1 = getStateVal demoStore ∧
    getStateVal c8RedoRes.2.1 = getStateVal c8St1 := by
  have h := snapshot_undo_redo_roundtrip demoStore c8St1 c8UndoRes.2.1
    c8RedoRes.2.1 c8Mgr c8M1 c8M2 c8UndoRes.1 [("count", 1)] c8UndoRes.2.2
    c8RedoRes.2.2 rfl (by decide) (by decide) rfl rfl rfl rfl rfl
    rfl rfl rfl
  exact ⟨h.1, h.2.1⟩
